import Mathlib

/-!
# FrameIt — verification of the image/like/collection core

Shallow embedding of `server/src/routes/images.js` together with the data
model of `server/src/models/Image.js` and `server/src/models/Like.js`.

The database is modelled as two lists (insertion = natural collection
order).  Mongo/JS values that matter for behaviour are modelled
faithfully:

* `likesCount` is a JS number used as an integer, so it is `Int` here and
  the unlike branch's `Math.max(0, likesCount - 1)` is `max 0 (c - 1)`.
* Mongo ObjectIds versus JS strings matter: `GET /images/user` calls
  `likedImageIds.includes(img._id.toString())` where `likedImageIds`
  holds ObjectIds (from `.distinct('imageId')`) while the argument is a
  string; JS `includes` (SameValueZero) never equates an ObjectId object
  with a string.  `JsVal` carries that type tag.
* `new Map(pairs).values()` keeps the first-insertion position of a key
  but the last value written to it (`jsMapValues`).
* JS `Array.prototype.sort` with the comparators used here is a stable
  sort, and Mongo's `sort({createdAt: -1})` is deterministic per
  snapshot; both are modelled with a stable insertion sort.
-/

/-- A JS runtime value as far as id comparisons are concerned: a raw
Mongo ObjectId, or its hex string (`.toString()`).  The payload `Nat` is
the underlying identity. -/
inductive JsVal where
  | oid (n : Nat)
  | str (n : Nat)
deriving DecidableEq, Repr

/-- `.toString()` on an id-like value: an ObjectId renders as its hex
string; a string stays itself. -/
def JsVal.toStr : JsVal → JsVal
  | .oid n => .str n
  | .str n => .str n

/-- An `Image` document (`models/Image.js`): only the fields the routes
under verification read or write (`_id`, `uploadedBy`, `likesCount`,
`createdAt`); file metadata, description and `isPublic` play no role in
the like/collection/stats logic. -/
structure Image where
  id : Nat
  uploadedBy : Nat
  likesCount : Int
  createdAt : Nat
deriving DecidableEq, Repr

/-- A `Like` document (`models/Like.js`): `_id`, `userId`, `imageId`,
`createdAt`. -/
structure Like where
  id : Nat
  userId : Nat
  imageId : Nat
  createdAt : Nat
deriving DecidableEq, Repr

/-- The database state: the two collections in natural (insertion)
order, plus a counter supplying fresh `_id`s / `Date.now()` timestamps
for newly created `Like` documents. -/
structure St where
  images : List Image
  likes : List Like
  nextId : Nat
deriving DecidableEq, Repr

/-- `Image.findById(imageId)`: first document with that `_id`. -/
def findImage (iid : Nat) (s : St) : Option Image :=
  s.images.find? (fun im => im.id == iid)

/-- `image.save()` after mutating a fetched document: the stored
document(s) with that `_id` are overwritten with the new version. -/
def saveImage (im : Image) (l : List Image) : List Image :=
  l.map (fun x => if x.id == im.id then im else x)

/-- Response body of `POST /images/:imageId/like` (the fields the spec
talks about). -/
structure ToggleResp where
  isLiked : Bool
  likesCount : Int
deriving DecidableEq, Repr

/-- `POST /images/:imageId/like` (`routes/images.js`): `none` is the 404
path (image absent, no mutation).  If a `Like` by this user on this
image exists it is deleted (`deleteOne` by `_id`) and the counter is
decremented floored at 0; otherwise a `Like` is created and the counter
incremented. -/
def toggle (u iid : Nat) (s : St) : Option (ToggleResp × St) :=
  match findImage iid s with
  | none => none
  | some image =>
    match s.likes.find? (fun l => l.userId == u && l.imageId == iid) with
    | some existingLike =>
      let likes' := s.likes.eraseP (fun l => l.id == existingLike.id)
      let image' := { image with likesCount := max 0 (image.likesCount - 1) }
      some ({ isLiked := false, likesCount := image'.likesCount },
            { s with likes := likes', images := saveImage image' s.images })
    | none =>
      let newLike : Like :=
        { id := s.nextId, userId := u, imageId := iid, createdAt := s.nextId }
      let image' := { image with likesCount := image.likesCount + 1 }
      some ({ isLiked := true, likesCount := image'.likesCount },
            { images := saveImage image' s.images,
              likes := s.likes ++ [newLike],
              nextId := s.nextId + 1 })

/-- `n` sequential invocations of `toggle(U,I)` threading the state;
`none` as soon as one invocation hits the 404 path. -/
def stepN (u iid : Nat) : Nat → St → Option St
  | 0, s => some s
  | n + 1, s =>
    match toggle u iid s with
    | none => none
    | some (_, s') => stepN u iid n s'

/-- The response of the last of `n` sequential `toggle(U,I)` invocations
(`none` when `n = 0` or some invocation 404s). -/
def toggleSeq (u iid : Nat) : Nat → St → Option (ToggleResp × St)
  | 0, _ => none
  | n + 1, s =>
    match stepN u iid n s with
    | none => none
    | some s' => toggle u iid s'

/-- One image object of a list response, annotated with `isLiked`. -/
structure AnnImage where
  img : Image
  isLiked : Bool
deriving DecidableEq, Repr

/-- Shape of the three list responses: page slice, `total`, `page`,
`pages`. -/
structure ViewResp where
  images : List AnnImage
  total : Nat
  page : Nat
  pages : Nat
deriving DecidableEq, Repr

/-- `Math.ceil(total / limit)` on the natural numbers the routes feed
it. -/
def jsCeilDiv (total limit : Nat) : Nat := (total + limit - 1) / limit

/-- Descending order on image creation time: the JS comparator
`(a, b) => new Date(b.createdAt) - new Date(a.createdAt)` orders `a`
before `b` exactly when `b.createdAt ≤ a.createdAt`. -/
def imageDescRel (a b : Image) : Prop := b.createdAt ≤ a.createdAt

instance : DecidableRel imageDescRel := fun a b => Nat.decLe b.createdAt a.createdAt

instance : IsTotal Image imageDescRel := ⟨fun a b => Nat.le_total b.createdAt a.createdAt⟩

instance : IsTrans Image imageDescRel := ⟨fun _ _ _ h1 h2 => Nat.le_trans h2 h1⟩

/-- Descending order on like creation time (`sort({createdAt: -1})`). -/
def likeDescRel (a b : Like) : Prop := b.createdAt ≤ a.createdAt

instance : DecidableRel likeDescRel := fun a b => Nat.decLe b.createdAt a.createdAt

instance : IsTotal Like likeDescRel := ⟨fun a b => Nat.le_total b.createdAt a.createdAt⟩

instance : IsTrans Like likeDescRel := ⟨fun _ _ _ h1 h2 => Nat.le_trans h2 h1⟩

/-- Stable sort of image documents by `createdAt` descending:
`sort({createdAt: -1})` on an `Image.find`, and the JS `Array.sort`
call of the collection route.  (The spec requires only a deterministic
tie-break, so any stable sort models the source's ordering.) -/
def sortImagesDesc (l : List Image) : List Image :=
  l.insertionSort imageDescRel

/-- Stable sort of like documents by `createdAt` descending:
`Like.find(...).sort({createdAt: -1})`. -/
def sortLikesDesc (l : List Like) : List Like :=
  l.insertionSort likeDescRel

/-- `Like.find({userId}).distinct('imageId')`: the distinct liked image
ids of a user, as the ObjectId values Mongo returns. -/
def likedOids (u : Nat) (s : St) : List JsVal :=
  ((s.likes.filter (fun l => l.userId == u)).map (fun l => JsVal.oid l.imageId)).dedup

/-- `GET /images/user` (uploads view): the requester's uploads
newest-first, paginated, each annotated with
`likedImageIds.includes(img._id.toString())` — an ObjectId list probed
with a string. -/
def userView (u page limit : Nat) (s : St) : ViewResp :=
  let skip := (page - 1) * limit
  let own := s.images.filter (fun im => im.uploadedBy == u)
  let pageImages := ((sortImagesDesc own).drop skip).take limit
  let likedImageIds := likedOids u s
  { images := pageImages.map (fun im =>
      { img := im, isLiked := likedImageIds.contains (JsVal.oid im.id).toStr }),
    total := own.length,
    page := page,
    pages := jsCeilDiv own.length limit }

/-- The `imageMap[...] = img` loop of `GET /images/liked`: keyed by
`_id.toString()`, a later document overwrites an earlier one, so lookup
returns the last stored document with that id. -/
def lookupLast (iid : Nat) (l : List Image) : Option Image :=
  (l.filter (fun im => im.id == iid)).getLast?

/-- `GET /images/liked`: the requester's likes sorted by like creation
time descending and paginated; their images fetched and re-ordered to
the likes' order, dropping likes whose image no longer exists; every
entry annotated `isLiked := true`. -/
def likedView (u page limit : Nat) (s : St) : ViewResp :=
  let skip := (page - 1) * limit
  let userLikes := s.likes.filter (fun l => l.userId == u)
  let pageLikes := ((sortLikesDesc userLikes).drop skip).take limit
  let imageIds := pageLikes.map (fun l => l.imageId)
  let fetched := s.images.filter (fun im => imageIds.contains im.id)
  let orderedImages := imageIds.filterMap (fun iid => lookupLast iid fetched)
  { images := orderedImages.map (fun im => { img := im, isLiked := true }),
    total := userLikes.length,
    page := page,
    pages := jsCeilDiv userLikes.length limit }

/-- `new Map(l.map(img => [img._id.toString(), img])).values()`: one
entry per distinct id, positioned at the id's first occurrence, holding
the last document inserted under that id. -/
def jsMapValues : List Image → List Image
  | [] => []
  | x :: xs =>
    ((xs.filter (fun y => y.id == x.id)).getLast?.getD x)
      :: jsMapValues (xs.filter (fun y => y.id != x.id))
termination_by l => l.length
decreasing_by
  simp only [List.length_cons]
  exact Nat.lt_succ_of_le (List.length_filter_le _ _)

/-- The deduplicated, sorted backing list of `GET /images/collection`:
the requester's uploads concatenated with the image documents of the
requester's distinct liked ids, deduplicated by id via a JS `Map`, then
sorted by image creation time descending. -/
def collectionUnion (u : Nat) (s : St) : List Image :=
  let userUploads := s.images.filter (fun im => im.uploadedBy == u)
  let likedImageDocs := s.images.filter (fun im =>
    (likedOids u s).contains (JsVal.oid im.id))
  sortImagesDesc (jsMapValues (userUploads ++ likedImageDocs))

/-- Annotation of one collection entry:
`likedImages.some(id => id.toString() === img._id.toString())` — both
sides stringified, so this one is an honest id comparison. -/
def collAnnot (u : Nat) (s : St) (im : Image) : AnnImage :=
  { img := im,
    isLiked := (likedOids u s).any
      (fun i => i.toStr == (JsVal.oid im.id).toStr) }

/-- `GET /images/collection` (the `all` view): the slice of
`collectionUnion`, annotated with `collAnnot`. -/
def collectionView (u page limit : Nat) (s : St) : ViewResp :=
  let skip := (page - 1) * limit
  let uniqueImages := collectionUnion u s
  let paginatedImages := (uniqueImages.drop skip).take limit
  { images := paginatedImages.map (collAnnot u s),
    total := uniqueImages.length,
    page := page,
    pages := jsCeilDiv uniqueImages.length limit }

/-- Outcome of `DELETE /images/:imageId`. -/
inductive DelRes where
  | notFound
  | forbidden
  | ok
deriving DecidableEq, Repr

/-- `DELETE /images/:imageId`: 404 when the image is absent, 403 when
`image.uploadedBy.toString() !== req.user._id.toString()` — both before
any mutation; otherwise `Like.deleteMany({imageId})` then
`Image.deleteOne({_id: imageId})`.  (The best-effort unlink of the
stored file touches no database record and is outside the model.) -/
def deleteImage (u iid : Nat) (s : St) : DelRes × St :=
  match findImage iid s with
  | none => (.notFound, s)
  | some image =>
    if image.uploadedBy ≠ u then (.forbidden, s)
    else
      (.ok,
       { s with likes := s.likes.filter (fun l => !(l.imageId == iid)),
                images := s.images.eraseP (fun im => im.id == iid) })

/-- `GET /images/stats`: `images.reduce((sum, img) => sum + (img.likesCount || 0), 0)`
over the requester's uploads (`likesCount || 0` is the identity on a
numeric `likesCount`, since JS `0 || 0` is `0`). -/
def statsView (u : Nat) (s : St) : Int :=
  (s.images.filter (fun im => im.uploadedBy == u)).foldl
    (fun sum im => sum + im.likesCount) 0

/-- All stored counters are non-negative — the invariant the routes are
meant to maintain. -/
def NonnegCounts (s : St) : Prop :=
  ∀ im ∈ s.images, 0 ≤ im.likesCount

/-- One toggle request of a workload: a `(user, image)` pair; a 404
leaves the state unchanged. -/
def applyToggle (s : St) (op : Nat × Nat) : St :=
  match toggle op.1 op.2 s with
  | none => s
  | some (_, s') => s'

/-- A whole sequence of toggle requests by arbitrary users on arbitrary
images. -/
def runToggles (ops : List (Nat × Nat)) (s : St) : St :=
  ops.foldl applyToggle s

/-- A well-formed snapshot in which user `u` has no `Like` on image
`iid`, the image exists with counter `c`, the counter is non-negative
(the documented invariant) and every stored like id is older than the
id generator — exactly what holds before a like/unlike round trip. -/
def CleanFor (u iid : Nat) (c : Int) (s : St) : Prop :=
  ∃ im, findImage iid s = some im ∧ im.likesCount = c ∧ 0 ≤ c ∧
    (∀ l ∈ s.likes, ¬(l.userId = u ∧ l.imageId = iid)) ∧
    (∀ l ∈ s.likes, l.id < s.nextId)

/-- The snapshot right after the like branch ran from a `CleanFor`
state: the image's counter reads `c + 1` and the like store is some
base (with no like by `u` on `iid` and strictly older ids) followed by
the freshly created like. -/
def LikedFor (u iid : Nat) (c : Int) (s : St) : Prop :=
  ∃ im base newLike, findImage iid s = some im ∧ im.likesCount = c + 1 ∧ 0 ≤ c ∧
    s.likes = base ++ [newLike] ∧
    newLike.userId = u ∧ newLike.imageId = iid ∧
    (∀ l ∈ base, ¬(l.userId = u ∧ l.imageId = iid)) ∧
    (∀ l ∈ base, l.id ≠ newLike.id) ∧
    (∀ l ∈ base, l.id < s.nextId) ∧ newLike.id < s.nextId

/-- `image.save()` overwrites the stored document, and a subsequent
`findById` on the same id retrieves the saved version. -/
theorem find?_id_saveImage {iid : Nat} {im' : Image} (him' : im'.id = iid)
    {l : List Image} {im : Image} (h : l.find? (fun x => x.id == iid) = some im) :
    (saveImage im' l).find? (fun x => x.id == iid) = some im' := by
  induction l with
  | nil => simp at h
  | cons x xs ih =>
    by_cases hx : x.id = iid
    · have hcond : (x.id == im'.id) = true := by simp [him', hx]
      simp [saveImage, hcond, him', hx]
    · have hxb : (x.id == iid) = false := by simp [hx]
      have hcond : (x.id == im'.id) = false := by simp [him', hx]
      rw [List.find?_cons_of_neg _ (by simp [hxb])] at h
      simp only [saveImage, List.map_cons, hcond, if_neg, Bool.false_eq_true,
        if_false]
      rw [List.find?_cons_of_neg _ (by simp [hxb])]
      exact ih h

/-- Membership in a saved image list: either the saved document or an
untouched old one. -/
theorem mem_saveImage {im' : Image} {l : List Image} {x : Image}
    (hx : x ∈ saveImage im' l) : x = im' ∨ x ∈ l := by
  simp only [saveImage, List.mem_map] at hx
  obtain ⟨y, hy, hxy⟩ := hx
  by_cases h : (y.id == im'.id) = true
  · rw [if_pos h] at hxy
    exact Or.inl hxy.symm
  · rw [if_neg h] at hxy
    exact Or.inr (hxy ▸ hy)

/-- From a clean state, `toggle` takes the like branch: it answers
`isLiked = true` with counter `c + 1` and leaves a `LikedFor` state. -/
theorem toggle_clean {u iid : Nat} {c : Int} {s : St} (h : CleanFor u iid c s) :
    ∃ s₁, toggle u iid s = some ({ isLiked := true, likesCount := c + 1 }, s₁) ∧
      LikedFor u iid c s₁ := by
  obtain ⟨im, hfind, hc, hc0, hnol, hfresh⟩ := h
  subst hc
  have him : im.id = iid := by simpa using List.find?_some hfind
  have hnone : s.likes.find? (fun l => l.userId == u && l.imageId == iid) = none := by
    rw [List.find?_eq_none]
    intro l hl
    simpa using hnol l hl
  refine ⟨{ images := saveImage { im with likesCount := im.likesCount + 1 } s.images,
            likes := s.likes ++ [{ id := s.nextId, userId := u, imageId := iid,
                                   createdAt := s.nextId }],
            nextId := s.nextId + 1 }, ?_, ?_⟩
  · simp only [toggle, findImage] at *
    rw [hfind, hnone]
  · refine ⟨{ im with likesCount := im.likesCount + 1 }, s.likes,
      { id := s.nextId, userId := u, imageId := iid, createdAt := s.nextId },
      ?_, rfl, hc0, rfl, rfl, rfl, hnol, ?_, ?_, ?_⟩
    · have him2 : ({ im with likesCount := im.likesCount + 1 } : Image).id = iid := him
      exact find?_id_saveImage him2 hfind
    · exact fun l hl => Nat.ne_of_lt (hfresh l hl)
    · exact fun l hl => Nat.lt_succ_of_lt (hfresh l hl)
    · exact Nat.lt_succ_self _

/-- From a `LikedFor` state, `toggle` takes the unlike branch: it
answers `isLiked = false` with the original counter `c` and restores a
clean state. -/
theorem toggle_liked {u iid : Nat} {c : Int} {s : St} (h : LikedFor u iid c s) :
    ∃ s₂, toggle u iid s = some ({ isLiked := false, likesCount := c }, s₂) ∧
      CleanFor u iid c s₂ := by
  obtain ⟨im, base, nl, hfind, hc, hc0, hlikes, hnlu, hnli, hbase, hbid, hbfresh, hnlfresh⟩ := h
  have him : im.id = iid := by simpa using List.find?_some hfind
  have hfindlike : s.likes.find? (fun l => l.userId == u && l.imageId == iid) = some nl := by
    rw [hlikes, List.find?_append]
    have h1 : base.find? (fun l => l.userId == u && l.imageId == iid) = none := by
      rw [List.find?_eq_none]
      intro l hl
      simpa using hbase l hl
    rw [h1]
    simp [hnlu, hnli]
  have herase : (s.likes.eraseP (fun l => l.id == nl.id)) = base := by
    rw [hlikes, List.eraseP_append_right _ (by intro b hb; simpa using hbid b hb)]
    rw [List.eraseP_cons_of_pos (by simp), List.append_nil]
  have hmax : max 0 (im.likesCount - 1) = c := by
    rw [hc, add_sub_cancel_right]
    exact max_eq_right hc0
  refine ⟨{ s with likes := base, images := saveImage { im with likesCount := c } s.images }, ?_, ?_⟩
  · simp only [toggle, findImage] at hfind ⊢
    rw [hfind, hfindlike]
    simp only [herase, hmax]
  · refine ⟨{ im with likesCount := c }, ?_, rfl, hc0, ?_, ?_⟩
    · have him2 : ({ im with likesCount := c } : Image).id = iid := him
      exact find?_id_saveImage him2 hfind
    · exact hbase
    · exact hbfresh

/-- Sequencing toggles splits over addition. -/
theorem stepN_add (u iid a b : Nat) (s : St) :
    stepN u iid (a + b) s = (stepN u iid a s).bind (stepN u iid b) := by
  induction a generalizing s with
  | zero => simp [stepN]
  | succ n ih =>
    have he : n + 1 + b = (n + b) + 1 := by omega
    rw [he]
    simp only [stepN]
    cases toggle u iid s with
    | none => rfl
    | some p => exact ih p.2

/-- A like/unlike round trip from a clean state lands in a clean state
again. -/
theorem stepN_two_clean {u iid : Nat} {c : Int} {s : St} (h : CleanFor u iid c s) :
    ∃ s₂, stepN u iid 2 s = some s₂ ∧ CleanFor u iid c s₂ := by
  obtain ⟨s₁, ht1, hl⟩ := toggle_clean h
  obtain ⟨s₂, ht2, hc2⟩ := toggle_liked hl
  refine ⟨s₂, ?_, hc2⟩
  simp [stepN, ht1, ht2]

/-- Any even number of toggles from a clean state lands in a clean
state. -/
theorem stepN_even_clean (u iid : Nat) (c : Int) (m : Nat) :
    ∀ s : St, CleanFor u iid c s →
      ∃ s', stepN u iid (2 * m) s = some s' ∧ CleanFor u iid c s' := by
  induction m with
  | zero =>
    intro s h
    refine ⟨s, ?_, h⟩
    rw [Nat.mul_zero]
    rfl
  | succ n ih =>
    intro s h
    obtain ⟨s₂, h2, hc2⟩ := stepN_two_clean h
    obtain ⟨s', h', hc'⟩ := ih s₂ hc2
    refine ⟨s', ?_, hc'⟩
    have he : 2 * (n + 1) = 2 + 2 * n := by omega
    rw [he, stepN_add, h2]
    exact h'

/-- C1: starting from a state in which user `u` has no Like on image
`iid` (well-formed, counter `c`), an even number `2*m ≥ 2` of
sequential `toggle(u, iid)` invocations ends with a response
`isLiked = false` whose `likesCount` is `c`, and the stored image's
`likesCount` again reads its original value `c`. -/
theorem toggleSeq_even_restores (u iid : Nat) (c : Int) (s : St) (m : Nat)
    (hm : 1 ≤ m) (h : CleanFor u iid c s) :
    ∃ sf, toggleSeq u iid (2 * m) s = some ({ isLiked := false, likesCount := c }, sf) ∧
      ∃ im, findImage iid sf = some im ∧ im.likesCount = c := by
  obtain ⟨m', rfl⟩ : ∃ m', m = m' + 1 := ⟨m - 1, by omega⟩
  obtain ⟨s', hs', hc'⟩ := stepN_even_clean u iid c m' s h
  obtain ⟨s₁, ht1, hl⟩ := toggle_clean hc'
  obtain ⟨s₂, ht2, hc2⟩ := toggle_liked hl
  have hstep : stepN u iid (2 * m' + 1) s = some s₁ := by
    rw [stepN_add, hs']
    show stepN u iid 1 s' = some s₁
    simp [stepN, ht1]
  have he : 2 * (m' + 1) = (2 * m' + 1) + 1 := by omega
  rw [he]
  refine ⟨s₂, ?_, ?_⟩
  · simp only [toggleSeq, hstep]
    exact ht2
  · obtain ⟨im, hf, hcnt, -⟩ := hc2
    exact ⟨im, hf, hcnt⟩

/-- Shared demo snapshot: image 10 uploaded by user 1, no likes. -/
def tgDemoSt : St :=
  { images := [{ id := 10, uploadedBy := 1, likesCount := 0, createdAt := 5 }],
    likes := [], nextId := 100 }

/-- Witness for `toggleSeq_even_restores` at user 2, image 10, two
toggles. -/
theorem toggleSeq_even_restores_witness :
    CleanFor 2 10 0 tgDemoSt ∧
    ∃ sf, toggleSeq 2 10 (2 * 1) tgDemoSt = some ({ isLiked := false, likesCount := 0 }, sf) ∧
      ∃ im, findImage 10 sf = some im ∧ im.likesCount = 0 := by
  have hclean : CleanFor 2 10 0 tgDemoSt := by
    refine ⟨{ id := 10, uploadedBy := 1, likesCount := 0, createdAt := 5 },
      rfl, rfl, le_refl 0, ?_, ?_⟩
    · intro l hl
      simp [tgDemoSt] at hl
    · intro l hl
      simp [tgDemoSt] at hl
  exact ⟨hclean, toggleSeq_even_restores 2 10 0 tgDemoSt 1 (le_refl 1) hclean⟩

/-- C2: when a user has no Like on an existing image, one toggle
appends exactly one Like record for that pair, answers
`isLiked = true` with the incremented counter, and the stored image's
counter reads one more than before. -/
theorem toggle_creates_like (u iid : Nat) (s : St) (im : Image)
    (hfind : findImage iid s = some im)
    (hno : ∀ l ∈ s.likes, ¬(l.userId = u ∧ l.imageId = iid)) :
    ∃ s', toggle u iid s = some ({ isLiked := true, likesCount := im.likesCount + 1 }, s') ∧
      s'.likes = s.likes ++ [{ id := s.nextId, userId := u, imageId := iid, createdAt := s.nextId }] ∧
      findImage iid s' = some { im with likesCount := im.likesCount + 1 } := by
  have hnone : s.likes.find? (fun l => l.userId == u && l.imageId == iid) = none := by
    rw [List.find?_eq_none]
    intro l hl
    simpa using hno l hl
  have him : im.id = iid := by simpa using List.find?_some hfind
  refine ⟨{ images := saveImage { im with likesCount := im.likesCount + 1 } s.images, likes := s.likes ++ [{ id := s.nextId, userId := u, imageId := iid, createdAt := s.nextId }], nextId := s.nextId + 1 }, ?_, rfl, ?_⟩
  · simp only [toggle, findImage] at hfind ⊢
    rw [hfind, hnone]
  · have him2 : ({ im with likesCount := im.likesCount + 1 } : Image).id = iid := him
    exact find?_id_saveImage him2 hfind

/-- Witness for `toggle_creates_like`: user 2 likes image 10. -/
theorem toggle_creates_like_witness :
    (∀ l ∈ tgDemoSt.likes, ¬(l.userId = 2 ∧ l.imageId = 10)) ∧
    ∃ s', toggle 2 10 tgDemoSt = some ({ isLiked := true, likesCount := 0 + 1 }, s') ∧
      s'.likes = tgDemoSt.likes ++
        [{ id := 100, userId := 2, imageId := 10, createdAt := 100 }] ∧
      findImage 10 s' =
        some { id := 10, uploadedBy := 1, likesCount := 0 + 1, createdAt := 5 } := by
  have hno : ∀ l ∈ tgDemoSt.likes, ¬(l.userId = 2 ∧ l.imageId = 10) := by
    intro l hl
    simp [tgDemoSt] at hl
  exact ⟨hno, toggle_creates_like 2 10 tgDemoSt
    { id := 10, uploadedBy := 1, likesCount := 0, createdAt := 5 } rfl hno⟩

/-- Whenever a toggle succeeds, the new image list is the old one with
one document saved back, whose counter is either the floored decrement
or the increment of the fetched document's counter. -/
theorem toggle_some_state {u iid : Nat} {s : St} {r : ToggleResp} {s' : St}
    (h : toggle u iid s = some (r, s')) :
    ∃ im image', findImage iid s = some im ∧ s'.images = saveImage image' s.images ∧
      (image'.likesCount = max 0 (im.likesCount - 1) ∨
        image'.likesCount = im.likesCount + 1) := by
  unfold toggle at h
  cases hf : findImage iid s with
  | none =>
    rw [hf] at h
    simp at h
  | some im =>
    rw [hf] at h
    cases hl : s.likes.find? (fun l => l.userId == u && l.imageId == iid) with
    | some ex =>
      rw [hl] at h
      simp only [Option.some_inj, Prod.mk.injEq] at h
      obtain ⟨-, hs⟩ := h
      refine ⟨im, { im with likesCount := max 0 (im.likesCount - 1) }, rfl, ?_, Or.inl rfl⟩
      rw [← hs]
    | none =>
      rw [hl] at h
      simp only [Option.some_inj, Prod.mk.injEq] at h
      obtain ⟨-, hs⟩ := h
      refine ⟨im, { im with likesCount := im.likesCount + 1 }, rfl, ?_, Or.inr rfl⟩
      rw [← hs]

/-- A single toggle request keeps every stored counter non-negative. -/
theorem applyToggle_nonneg {s : St} (h : NonnegCounts s) (op : Nat × Nat) :
    NonnegCounts (applyToggle s op) := by
  unfold applyToggle
  cases htog : toggle op.1 op.2 s with
  | none => exact h
  | some p =>
    obtain ⟨r, s'⟩ := p
    show NonnegCounts s'
    obtain ⟨im, image', hfind, himgs, hcnt⟩ := toggle_some_state htog
    intro x hx
    rw [himgs] at hx
    rcases mem_saveImage hx with rfl | hxs
    · rcases hcnt with hh | hh
      · rw [hh]
        exact le_max_left 0 _
      · rw [hh]
        have h0 : 0 ≤ im.likesCount := h im (List.mem_of_find?_eq_some hfind)
        omega
    · exact h x hxs

/-- C3: under any sequence of toggle requests by any users on any
images, starting from a state with non-negative counters, every
reachable state still has non-negative counters — `likesCount` never
goes below zero. -/
theorem runToggles_nonneg (ops : List (Nat × Nat)) (s : St) (h : NonnegCounts s) :
    NonnegCounts (runToggles ops s) := by
  induction ops generalizing s with
  | nil => exact h
  | cons op rest ih =>
    show NonnegCounts (runToggles rest (applyToggle s op))
    exact ih _ (applyToggle_nonneg h op)

/-- Witness for `runToggles_nonneg` on a three-toggle workload. -/
theorem runToggles_nonneg_witness :
    NonnegCounts tgDemoSt ∧
    NonnegCounts (runToggles [(2, 10), (3, 10), (2, 10)] tgDemoSt) := by
  have h : NonnegCounts tgDemoSt := by
    intro im him
    simp only [tgDemoSt, List.mem_singleton] at him
    rw [him]
  exact ⟨h, runToggles_nonneg _ _ h⟩

/-- Snapshot for the uploads-view annotation: user 1 uploaded image 10
and has a Like record on it. -/
def likedUploadSt : St :=
  { images := [{ id := 10, uploadedBy := 1, likesCount := 1, createdAt := 5 }],
    likes := [{ id := 7, userId := 1, imageId := 10, createdAt := 6 }], nextId := 8 }

/-- C4 (code bug): in `likedUploadSt` a Like by user 1 on image 10
exists, yet `GET /images/user` annotates the upload `isLiked = false`:
`likedImageIds` holds raw ObjectIds while the route probes it with the
string `img._id.toString()`, and `Array.includes` never equates the
two, so the annotation cannot be true. -/
theorem userView_isLiked_bug :
    (∃ l ∈ likedUploadSt.likes, l.userId = 1 ∧ l.imageId = 10) ∧
    (userView 1 1 20 likedUploadSt).images =
      [{ img := { id := 10, uploadedBy := 1, likesCount := 1, createdAt := 5 },
         isLiked := false }] := by
  constructor
  · exact ⟨{ id := 7, userId := 1, imageId := 10, createdAt := 6 },
      by simp [likedUploadSt], rfl, rfl⟩
  · rfl

/-- The `imageMap` lookup only returns documents of the fetched list,
and only ones carrying the requested id. -/
theorem lookupLast_spec {iid : Nat} {l : List Image} {im : Image}
    (h : lookupLast iid l = some im) : im ∈ l ∧ im.id = iid := by
  unfold lookupLast at h
  have hmem := List.mem_of_mem_getLast? h
  rw [List.mem_filter] at hmem
  exact ⟨hmem.1, by simpa using hmem.2⟩

/-- Every like of a sorted, paginated page of `likes.filter q` is a
stored like satisfying `q`. -/
theorem mem_pageLikes {q : Like → Bool} {likes : List Like} {k n : Nat} {l : Like}
    (h : l ∈ ((sortLikesDesc (likes.filter q)).drop k).take n) :
    l ∈ likes ∧ q l = true := by
  have h1 : l ∈ sortLikesDesc (likes.filter q) :=
    ((List.take_sublist _ _).trans (List.drop_sublist _ _)).subset h
  have h2 : l ∈ likes.filter q :=
    (List.perm_insertionSort likeDescRel _).mem_iff.mp h1
  exact List.mem_filter.mp h2

/-- C8: deleting an image the requester does not own answers Forbidden
and leaves the whole state unchanged. -/
theorem delete_forbidden_unchanged (u iid : Nat) (s : St) (im : Image)
    (hfind : findImage iid s = some im) (hne : im.uploadedBy ≠ u) :
    deleteImage u iid s = (DelRes.forbidden, s) := by
  unfold deleteImage
  rw [hfind]
  simp [hne]

/-- Witness for `delete_forbidden_unchanged`: user 2 tries to delete
user 1's image. -/
theorem delete_forbidden_unchanged_witness :
    findImage 10 likedUploadSt =
      some { id := 10, uploadedBy := 1, likesCount := 1, createdAt := 5 } ∧
    deleteImage 2 10 likedUploadSt = (DelRes.forbidden, likedUploadSt) :=
  ⟨rfl, delete_forbidden_unchanged 2 10 likedUploadSt
    { id := 10, uploadedBy := 1, likesCount := 1, createdAt := 5 } rfl (by decide)⟩

/-- C9: when the uploader deletes their image, the operation succeeds,
no Like record referencing the image survives, and no later `liked`
view of any user contains an entry with that image id. -/
theorem delete_cascades_likes (u iid : Nat) (s : St) (im : Image)
    (hfind : findImage iid s = some im) (hown : im.uploadedBy = u) :
    ∃ s', deleteImage u iid s = (DelRes.ok, s') ∧
      (∀ l ∈ s'.likes, l.imageId ≠ iid) ∧
      (∀ v page limit : Nat, ∀ a ∈ (likedView v page limit s').images, a.img.id ≠ iid) := by
  refine ⟨{ s with likes := s.likes.filter (fun l => !(l.imageId == iid)), images := s.images.eraseP (fun x => x.id == iid) }, ?_, ?_, ?_⟩
  · unfold deleteImage
    rw [hfind]
    simp [hown]
  · intro l hl
    rw [List.mem_filter] at hl
    simpa using hl.2
  · intro v page limit a ha
    simp only [likedView, List.mem_map] at ha
    obtain ⟨im₀, him₀, rfl⟩ := ha
    rw [List.mem_filterMap] at him₀
    obtain ⟨iid', hiid', hlook⟩ := him₀
    have hid : im₀.id = iid' := (lookupLast_spec hlook).2
    rw [List.mem_map] at hiid'
    obtain ⟨l, hl, rfl⟩ := hiid'
    have hmem := mem_pageLikes hl
    have : l.imageId ≠ iid := by
      rw [List.mem_filter] at hmem
      simpa using hmem.1.2
    simpa [hid] using this

/-- Witness for `delete_cascades_likes`: user 1 deletes image 10,
which user 1 had liked. -/
theorem delete_cascades_likes_witness :
    findImage 10 likedUploadSt =
      some { id := 10, uploadedBy := 1, likesCount := 1, createdAt := 5 } ∧
    ∃ s', deleteImage 1 10 likedUploadSt = (DelRes.ok, s') ∧
      (∀ l ∈ s'.likes, l.imageId ≠ 10) ∧
      (∀ v page limit : Nat, ∀ a ∈ (likedView v page limit s').images, a.img.id ≠ 10) :=
  ⟨rfl, delete_cascades_likes 1 10 likedUploadSt
    { id := 10, uploadedBy := 1, likesCount := 1, createdAt := 5 } rfl rfl⟩

/-- The stats fold is the sum of the mapped counters. -/
theorem foldl_add_likes (l : List Image) (a : Int) :
    l.foldl (fun acc im => acc + im.likesCount) a =
      a + (l.map (fun im => im.likesCount)).sum := by
  induction l generalizing a with
  | nil => simp
  | cons x xs ih => simp [ih, add_assoc]

/-- C10: the stats endpoint returns the sum of `likesCount` over
exactly the requester's uploads; it is non-negative on states with
non-negative counters, and appending another user's upload leaves it
unchanged. -/
theorem stats_sum_own_uploads (u : Nat) (s : St) (im' : Image)
    (hn : NonnegCounts s) (hother : im'.uploadedBy ≠ u) :
    statsView u s =
      ((s.images.filter (fun im => im.uploadedBy == u)).map (fun im => im.likesCount)).sum ∧
    0 ≤ statsView u s ∧
    statsView u { s with images := s.images ++ [im'] } = statsView u s := by
  have hrepr : statsView u s =
      ((s.images.filter (fun im => im.uploadedBy == u)).map (fun im => im.likesCount)).sum := by
    unfold statsView
    rw [foldl_add_likes]
    simp
  refine ⟨hrepr, ?_, ?_⟩
  · rw [hrepr]
    apply List.sum_nonneg
    intro x hx
    simp only [List.mem_map, List.mem_filter] at hx
    obtain ⟨y, ⟨hy, -⟩, rfl⟩ := hx
    exact hn y hy
  · show ((s.images ++ [im']).filter (fun im => im.uploadedBy == u)).foldl
      (fun acc im => acc + im.likesCount) 0 = statsView u s
    rw [List.filter_append]
    have hf : [im'].filter (fun im => im.uploadedBy == u) = [] := by
      simp [hother]
    rw [hf, List.append_nil]
    rfl

/-- Demo snapshot for the stats endpoint: user 1 uploaded two images
(counters 2 and 1), user 3 uploaded one (counter 5). -/
def statsDemoSt : St :=
  { images := [{ id := 1, uploadedBy := 1, likesCount := 2, createdAt := 1 },
               { id := 2, uploadedBy := 3, likesCount := 5, createdAt := 2 },
               { id := 3, uploadedBy := 1, likesCount := 1, createdAt := 3 }],
    likes := [], nextId := 50 }

/-- Witness for `stats_sum_own_uploads` at user 1. -/
theorem stats_sum_own_uploads_witness :
    NonnegCounts statsDemoSt ∧
    statsView 1 statsDemoSt =
      ((statsDemoSt.images.filter (fun im => im.uploadedBy == 1)).map (fun im => im.likesCount)).sum ∧
    0 ≤ statsView 1 statsDemoSt ∧
    statsView 1 { statsDemoSt with images := statsDemoSt.images ++ [{ id := 9, uploadedBy := 2, likesCount := 7, createdAt := 9 }] } = statsView 1 statsDemoSt := by
  have hn : NonnegCounts statsDemoSt := by
    intro x hx
    simp only [statsDemoSt, List.mem_cons, List.not_mem_nil, or_false] at hx
    rcases hx with rfl | rfl | rfl <;> decide
  exact ⟨hn, stats_sum_own_uploads 1 statsDemoSt
    { id := 9, uploadedBy := 2, likesCount := 7, createdAt := 9 } hn (by decide)⟩

/-- A `filterMap` of a pairwise-related list is pairwise related
through the partial function. -/
theorem pairwise_filterMap_of {α β : Type} {R : α → α → Prop} {S : β → β → Prop}
    (f : α → Option β) {l : List α}
    (hf : ∀ a ∈ l, ∀ b ∈ l, ∀ x y, R a b → f a = some x → f b = some y → S x y)
    (h : List.Pairwise R l) : List.Pairwise S (l.filterMap f) := by
  induction l with
  | nil => simp
  | cons a t ih =>
    rw [List.pairwise_cons] at h
    have hftail : ∀ a' ∈ t, ∀ b' ∈ t, ∀ x y, R a' b' → f a' = some x → f b' = some y → S x y :=
      fun a' ha' b' hb' => hf a' (List.mem_cons_of_mem _ ha') b' (List.mem_cons_of_mem _ hb')
    cases hfa : f a with
    | none =>
      rw [List.filterMap_cons_none hfa]
      exact ih hftail h.2
    | some b =>
      rw [List.filterMap_cons_some hfa]
      refine List.Pairwise.cons ?_ (ih hftail h.2)
      intro y hy
      rw [List.mem_filterMap] at hy
      obtain ⟨a', ha', hfa'⟩ := hy
      exact hf a (List.mem_cons_self a t) a' (List.mem_cons_of_mem _ ha') b y
        (h.1 a' ha') hfa hfa'

/-- With unique image ids, filtering a list for one id yields exactly
the one document carrying it. -/
theorem filter_id_eq_singleton {l : List Image} {im : Image}
    (hnd : (l.map (fun x => x.id)).Nodup) (hmem : im ∈ l) :
    l.filter (fun x => x.id == im.id) = [im] := by
  induction l with
  | nil => simp at hmem
  | cons x t ih =>
    rw [List.map_cons, List.nodup_cons] at hnd
    rcases List.mem_cons.mp hmem with rfl | hmt
    · rw [List.filter_cons_of_pos (by simp)]
      have ht : t.filter (fun y => y.id == im.id) = [] := by
        rw [List.filter_eq_nil_iff]
        intro y hy
        simp only [beq_iff_eq]
        intro hcontra
        exact hnd.1 (List.mem_map.mpr ⟨y, hy, hcontra⟩)
      rw [ht]
    · have hxne : (x.id == im.id) = false := by
        rw [beq_eq_false_iff_ne]
        intro heq
        exact hnd.1 (List.mem_map.mpr ⟨im, hmt, heq.symm⟩)
      rw [List.filter_cons_of_neg (by simp [hxne])]
      exact ih hnd.2 hmt

/-- With unique image ids, the `imageMap` lookup of a stored document's
id returns that document. -/
theorem lookupLast_of_mem {l : List Image} {im : Image}
    (hnd : (l.map (fun x => x.id)).Nodup) (hmem : im ∈ l) :
    lookupLast im.id l = some im := by
  unfold lookupLast
  rw [filter_id_eq_singleton hnd hmem]
  rfl

/-- Under the Like store's uniqueness constraint, `findOne` on a
(user, image) pair retrieves the member like with that pair. -/
theorem find?_unique_like {u iid : Nat} {s : St} {l₁ : Like}
    (hnd : (s.likes.map (fun l => (l.userId, l.imageId))).Nodup)
    (hmem : l₁ ∈ s.likes) (hu : l₁.userId = u) (hi : l₁.imageId = iid) :
    s.likes.find? (fun l => l.userId == u && l.imageId == iid) = some l₁ := by
  cases hf : s.likes.find? (fun l => l.userId == u && l.imageId == iid) with
  | none =>
    rw [List.find?_eq_none] at hf
    exact absurd (by simp [hu, hi]) (hf l₁ hmem)
  | some l₂ =>
    have hm2 := List.mem_of_find?_eq_some hf
    have hp2 := List.find?_some hf
    simp only [Bool.and_eq_true, beq_iff_eq] at hp2
    have heq : l₂ = l₁ :=
      List.inj_on_of_nodup_map hnd hm2 hmem (by rw [hp2.1, hp2.2, hu, hi])
    rw [heq]

/-- The creation time of the requester's Like on an image (0 when
absent): the observable the spec orders the `liked` view by. -/
def userLikeTime (u : Nat) (s : St) (im : Image) : Nat :=
  ((s.likes.find? (fun l => l.userId == u && l.imageId == im.id)).map
    (fun l => l.createdAt)).getD 0

/-- C7: on one page that fits every like (page 1, limit at least the
requester's like count), under the Like store's (user, image)
uniqueness index and unique image ids, the `liked` view annotates every
entry `isLiked = true`, returns exactly the existing images the
requester has liked, and lists them by the Like records' creation time
descending. -/
theorem liked_view_exact (u L : Nat) (s : St)
    (hL : (s.likes.filter (fun l => l.userId == u)).length ≤ L)
    (hlnd : (s.likes.map (fun l => (l.userId, l.imageId))).Nodup)
    (hind : (s.images.map (fun im => im.id)).Nodup) :
    (∀ a ∈ (likedView u 1 L s).images, a.isLiked = true) ∧
    (∀ im : Image, (∃ a ∈ (likedView u 1 L s).images, a.img = im) ↔
      (im ∈ s.images ∧ ∃ l ∈ s.likes, l.userId = u ∧ l.imageId = im.id)) ∧
    List.Pairwise (fun a b => userLikeTime u s b.img ≤ userLikeTime u s a.img)
      (likedView u 1 L s).images := by
  have hlen : (sortLikesDesc (s.likes.filter (fun l => l.userId == u))).length
      = (s.likes.filter (fun l => l.userId == u)).length :=
    (List.perm_insertionSort likeDescRel _).length_eq
  have hpage : ((sortLikesDesc (s.likes.filter (fun l => l.userId == u))).drop
      ((1 - 1) * L)).take L = sortLikesDesc (s.likes.filter (fun l => l.userId == u)) := by
    simp only [Nat.sub_self, Nat.zero_mul, List.drop_zero]
    exact List.take_of_length_le (by rw [hlen]; exact hL)
  have hview : (likedView u 1 L s).images =
      ((sortLikesDesc (s.likes.filter (fun l => l.userId == u))).filterMap
        (fun l => lookupLast l.imageId
          (s.images.filter (fun im =>
            ((sortLikesDesc (s.likes.filter (fun l => l.userId == u))).map
              (fun l => l.imageId)).contains im.id)))).map
        (fun im => { img := im, isLiked := true }) := by
    simp only [likedView, hpage, List.filterMap_map]
    rfl
  have hfsub : ∀ x ∈ s.images.filter (fun im =>
      ((sortLikesDesc (s.likes.filter (fun l => l.userId == u))).map
        (fun l => l.imageId)).contains im.id), x ∈ s.images :=
    fun x hx => (List.mem_filter.mp hx).1
  have hfnd : ((s.images.filter (fun im =>
      ((sortLikesDesc (s.likes.filter (fun l => l.userId == u))).map
        (fun l => l.imageId)).contains im.id)).map (fun x => x.id)).Nodup :=
    List.Nodup.sublist ((List.filter_sublist _).map _) hind
  have hsortmem : ∀ l ∈ sortLikesDesc (s.likes.filter (fun l => l.userId == u)),
      l ∈ s.likes ∧ l.userId = u := by
    intro l hl
    have h2 := (List.perm_insertionSort likeDescRel _).mem_iff.mp hl
    have h3 := List.mem_filter.mp h2
    exact ⟨h3.1, by simpa using h3.2⟩
  refine ⟨?_, ?_, ?_⟩
  · rw [hview]
    intro a ha
    rw [List.mem_map] at ha
    obtain ⟨im₀, -, rfl⟩ := ha
    rfl
  · intro im
    rw [hview]
    constructor
    · rintro ⟨a, ha, hai⟩
      rw [List.mem_map] at ha
      obtain ⟨im₀, him₀, rfl⟩ := ha
      replace hai : im₀ = im := hai
      subst hai
      rw [List.mem_filterMap] at him₀
      obtain ⟨l, hl, hlook⟩ := him₀
      obtain ⟨hfet, hid⟩ := lookupLast_spec hlook
      obtain ⟨hls, hlu⟩ := hsortmem l hl
      exact ⟨hfsub _ hfet, l, hls, hlu, hid.symm⟩
    · rintro ⟨hims, l, hls, hlu, hli⟩
      have hlsort : l ∈ sortLikesDesc (s.likes.filter (fun l => l.userId == u)) :=
        (List.perm_insertionSort likeDescRel _).mem_iff.mpr
          (List.mem_filter.mpr ⟨hls, by simp [hlu]⟩)
      have hcont : ((sortLikesDesc (s.likes.filter (fun l => l.userId == u))).map
          (fun l => l.imageId)).contains im.id = true :=
        List.elem_eq_true_of_mem (List.mem_map.mpr ⟨l, hlsort, hli⟩)
      have hfetch : im ∈ s.images.filter (fun im =>
          ((sortLikesDesc (s.likes.filter (fun l => l.userId == u))).map
            (fun l => l.imageId)).contains im.id) :=
        List.mem_filter.mpr ⟨hims, hcont⟩
      refine ⟨{ img := im, isLiked := true }, ?_, rfl⟩
      rw [List.mem_map]
      refine ⟨im, ?_, rfl⟩
      rw [List.mem_filterMap]
      refine ⟨l, hlsort, ?_⟩
      rw [hli]
      exact lookupLast_of_mem hfnd hfetch
  · rw [hview, List.pairwise_map]
    apply pairwise_filterMap_of
    · intro l₁ h₁ l₂ h₂ x y hR hx hy
      obtain ⟨h₁s, h₁u⟩ := hsortmem l₁ h₁
      obtain ⟨h₂s, h₂u⟩ := hsortmem l₂ h₂
      have hx2 := lookupLast_spec hx
      have hy2 := lookupLast_spec hy
      have hux : userLikeTime u s x = l₁.createdAt := by
        unfold userLikeTime
        rw [find?_unique_like hlnd h₁s h₁u hx2.2.symm]
        rfl
      have huy : userLikeTime u s y = l₂.createdAt := by
        unfold userLikeTime
        rw [find?_unique_like hlnd h₂s h₂u hy2.2.symm]
        rfl
      show userLikeTime u s y ≤ userLikeTime u s x
      rw [hux, huy]
      exact hR
    · exact List.sorted_insertionSort likeDescRel _

/-- Demo snapshot for the liked view: user 2 liked image 20 at time 3
and image 21 at time 9. -/
def likedDemoSt : St :=
  { images := [{ id := 20, uploadedBy := 1, likesCount := 1, createdAt := 4 },
               { id := 21, uploadedBy := 1, likesCount := 1, createdAt := 2 }],
    likes := [{ id := 1, userId := 2, imageId := 20, createdAt := 3 },
              { id := 2, userId := 2, imageId := 21, createdAt := 9 }],
    nextId := 30 }

/-- Witness for `liked_view_exact` at user 2, limit 20. -/
theorem liked_view_exact_witness :
    ((likedDemoSt.likes.filter (fun l => l.userId == 2)).length ≤ 20 ∧
     (likedDemoSt.likes.map (fun l => (l.userId, l.imageId))).Nodup ∧
     (likedDemoSt.images.map (fun im => im.id)).Nodup) ∧
    ((∀ a ∈ (likedView 2 1 20 likedDemoSt).images, a.isLiked = true) ∧
    (∀ im : Image, (∃ a ∈ (likedView 2 1 20 likedDemoSt).images, a.img = im) ↔
      (im ∈ likedDemoSt.images ∧ ∃ l ∈ likedDemoSt.likes, l.userId = 2 ∧ l.imageId = im.id)) ∧
    List.Pairwise (fun a b => userLikeTime 2 likedDemoSt b.img ≤ userLikeTime 2 likedDemoSt a.img)
      (likedView 2 1 20 likedDemoSt).images) :=
  ⟨⟨by decide, by decide, by decide⟩,
    liked_view_exact 2 20 likedDemoSt (by decide) (by decide) (by decide)⟩

/-- The value the JS Map keeps for a key carries that key's id. -/
theorem jsMapValues_head_id (x : Image) (xs : List Image) :
    ((xs.filter (fun y => y.id == x.id)).getLast?.getD x).id = x.id := by
  cases hz : (xs.filter (fun y => y.id == x.id)).getLast? with
  | none => rfl
  | some z =>
    have hmem := List.mem_of_mem_getLast? hz
    rw [List.mem_filter] at hmem
    simpa using hmem.2

/-- The ids surviving the JS Map dedup are exactly the ids of the input
list. -/
theorem jsMapValues_ids_mem (l : List Image) (i : Nat) :
    (∃ x ∈ jsMapValues l, x.id = i) ↔ ∃ x ∈ l, x.id = i := by
  induction l using jsMapValues.induct with
  | case1 => simp [jsMapValues]
  | case2 x xs ih =>
    rw [jsMapValues]
    constructor
    · rintro ⟨y, hy, rfl⟩
      rcases List.mem_cons.mp hy with rfl | hyt
      · exact ⟨x, List.mem_cons_self x xs, (jsMapValues_head_id x xs).symm⟩
      · obtain ⟨z, hz, hzi⟩ := ih.mp ⟨y, hyt, rfl⟩
        exact ⟨z, List.mem_cons_of_mem _ ((List.filter_sublist _).subset hz), hzi⟩
    · rintro ⟨z, hz, rfl⟩
      rcases List.mem_cons.mp hz with rfl | hzt
      · exact ⟨_, List.mem_cons_self _ _, jsMapValues_head_id z xs⟩
      · by_cases hzx : z.id = x.id
        · exact ⟨_, List.mem_cons_self _ _, by rw [jsMapValues_head_id, hzx]⟩
        · have hzf : z ∈ xs.filter (fun y => y.id != x.id) :=
            List.mem_filter.mpr ⟨hzt, by simpa using hzx⟩
          obtain ⟨y, hy, hyi⟩ := ih.mpr ⟨z, hzf, rfl⟩
          exact ⟨y, List.mem_cons_of_mem _ hy, hyi⟩

/-- The JS Map dedup leaves no duplicate ids. -/
theorem jsMapValues_ids_nodup (l : List Image) :
    ((jsMapValues l).map (fun x => x.id)).Nodup := by
  induction l using jsMapValues.induct with
  | case1 => simp [jsMapValues]
  | case2 x xs ih =>
    rw [jsMapValues, List.map_cons, List.nodup_cons]
    refine ⟨?_, ih⟩
    rw [jsMapValues_head_id]
    intro hmem
    rw [List.mem_map] at hmem
    obtain ⟨y, hy, hyid⟩ := hmem
    obtain ⟨z, hz, hzx⟩ := (jsMapValues_ids_mem _ _).mp ⟨y, hy, hyid⟩
    have hne := (List.mem_filter.mp hz).2
    rw [bne_iff_ne] at hne
    exact hne hzx

/-- Membership in the distinct liked-id list is exactly having a Like
record. -/
theorem likedOids_contains (u i : Nat) (s : St) :
    (likedOids u s).contains (JsVal.oid i) = true ↔
      ∃ l ∈ s.likes, l.userId = u ∧ l.imageId = i := by
  unfold likedOids
  constructor
  · intro h
    have hm := List.mem_of_elem_eq_true h
    rw [List.mem_dedup, List.mem_map] at hm
    obtain ⟨l, hl, hoid⟩ := hm
    have hf := List.mem_filter.mp hl
    refine ⟨l, hf.1, by simpa using hf.2, ?_⟩
    simpa using hoid
  · rintro ⟨l, hl, hu, hi⟩
    apply List.elem_eq_true_of_mem
    rw [List.mem_dedup, List.mem_map]
    exact ⟨l, List.mem_filter.mpr ⟨hl, by simp [hu]⟩, by rw [hi]⟩

/-- The backing collection list has no duplicate ids. -/
theorem collectionUnion_ids_nodup (u : Nat) (s : St) :
    ((collectionUnion u s).map (fun x => x.id)).Nodup := by
  have hperm := List.perm_insertionSort imageDescRel
    (jsMapValues (s.images.filter (fun im => im.uploadedBy == u) ++
      s.images.filter (fun im => (likedOids u s).contains (JsVal.oid im.id))))
  exact ((hperm.map _).nodup_iff).mpr (jsMapValues_ids_nodup _)

/-- An id appears in the backing collection list exactly when it is an
upload of the requester or an existing image the requester liked. -/
theorem collectionUnion_ids_mem (u i : Nat) (s : St) :
    (∃ x ∈ collectionUnion u s, x.id = i) ↔
      ((∃ im ∈ s.images, im.id = i ∧ im.uploadedBy = u) ∨
       ((∃ im ∈ s.images, im.id = i) ∧ ∃ l ∈ s.likes, l.userId = u ∧ l.imageId = i)) := by
  have hperm := List.perm_insertionSort imageDescRel
    (jsMapValues (s.images.filter (fun im => im.uploadedBy == u) ++
      s.images.filter (fun im => (likedOids u s).contains (JsVal.oid im.id))))
  constructor
  · rintro ⟨x, hx, rfl⟩
    have hx2 : x ∈ jsMapValues (s.images.filter (fun im => im.uploadedBy == u) ++
        s.images.filter (fun im => (likedOids u s).contains (JsVal.oid im.id))) :=
      hperm.mem_iff.mp hx
    obtain ⟨y, hy, hyi⟩ := (jsMapValues_ids_mem _ _).mp ⟨x, hx2, rfl⟩
    rcases List.mem_append.mp hy with hup | hlk
    · have hf := List.mem_filter.mp hup
      exact Or.inl ⟨y, hf.1, hyi, by simpa using hf.2⟩
    · have hf := List.mem_filter.mp hlk
      have hcont := (likedOids_contains u y.id s).mp hf.2
      rw [hyi] at hcont
      exact Or.inr ⟨⟨y, hf.1, hyi⟩, hcont⟩
  · intro h
    have hmemA : ∃ x ∈ (s.images.filter (fun im => im.uploadedBy == u) ++
        s.images.filter (fun im => (likedOids u s).contains (JsVal.oid im.id))), x.id = i := by
      rcases h with ⟨im, him, hid, hup⟩ | ⟨⟨im, him, hid⟩, hlike⟩
      · exact ⟨im, List.mem_append.mpr (Or.inl (List.mem_filter.mpr ⟨him, by simp [hup]⟩)), hid⟩
      · refine ⟨im, List.mem_append.mpr (Or.inr (List.mem_filter.mpr ⟨him, ?_⟩)), hid⟩
        exact (likedOids_contains u im.id s).mpr (by rw [hid]; exact hlike)
    obtain ⟨x, hx, hxi⟩ := (jsMapValues_ids_mem _ _).mpr hmemA
    exact ⟨x, hperm.mem_iff.mpr hx, hxi⟩

/-- The backing collection list is ordered by image creation time
descending. -/
theorem collectionUnion_sorted (u : Nat) (s : St) :
    List.Pairwise (fun a b => b.createdAt ≤ a.createdAt) (collectionUnion u s) :=
  List.sorted_insertionSort imageDescRel _

/-- With page 1 and the whole union fitting inside the limit, the
collection response is the whole backing list, annotated. -/
theorem collectionView_images_full (u L : Nat) (s : St)
    (hL : (collectionUnion u s).length ≤ L) :
    (collectionView u 1 L s).images = (collectionUnion u s).map (collAnnot u s) := by
  simp only [collectionView, Nat.sub_self, Nat.zero_mul, List.drop_zero]
  rw [List.take_of_length_le hL]

/-- The JS Map dedup never lengthens a list. -/
theorem jsMapValues_length_le (l : List Image) : (jsMapValues l).length ≤ l.length := by
  induction l using jsMapValues.induct with
  | case1 => simp [jsMapValues]
  | case2 x xs ih =>
    rw [jsMapValues]
    simp only [List.length_cons]
    exact Nat.succ_le_succ (le_trans ih (List.length_filter_le _ _))

/-- C5: with the whole union on one page, the `all` collection view
has no duplicate image ids; its entries' ids are exactly the union of
the requester's uploads and the requester's existing liked images; the
reported `total` equals the number of returned (deduplicated) entries;
and the entries are sorted by image creation time descending. -/
theorem collection_all_union (u L : Nat) (s : St)
    (hL : (collectionView u 1 L s).total ≤ L) :
    ((collectionView u 1 L s).images.map (fun a => a.img.id)).Nodup ∧
    (∀ i : Nat, (∃ a ∈ (collectionView u 1 L s).images, a.img.id = i) ↔
      ((∃ im ∈ s.images, im.id = i ∧ im.uploadedBy = u) ∨
       ((∃ im ∈ s.images, im.id = i) ∧ ∃ l ∈ s.likes, l.userId = u ∧ l.imageId = i))) ∧
    (collectionView u 1 L s).total = (collectionView u 1 L s).images.length ∧
    List.Pairwise (fun a b => b.img.createdAt ≤ a.img.createdAt)
      (collectionView u 1 L s).images := by
  have hLu : (collectionUnion u s).length ≤ L := hL
  have hv := collectionView_images_full u L s hLu
  refine ⟨?_, ?_, ?_, ?_⟩
  · rw [hv, List.map_map]
    exact collectionUnion_ids_nodup u s
  · intro i
    rw [hv]
    constructor
    · rintro ⟨a, ha, hai⟩
      rw [List.mem_map] at ha
      obtain ⟨im, him, rfl⟩ := ha
      exact (collectionUnion_ids_mem u i s).mp ⟨im, him, hai⟩
    · intro h
      obtain ⟨x, hx, hxi⟩ := (collectionUnion_ids_mem u i s).mpr h
      exact ⟨collAnnot u s x, List.mem_map.mpr ⟨x, hx, rfl⟩, hxi⟩
  · rw [hv, List.length_map]
    rfl
  · rw [hv, List.pairwise_map]
    exact collectionUnion_sorted u s

/-- Demo snapshot for the collection view: user 1 uploaded images 1
and 2 and liked images 2 (own) and 3 (user 9's). -/
def collDemoSt : St :=
  { images := [{ id := 1, uploadedBy := 1, likesCount := 0, createdAt := 1 },
               { id := 2, uploadedBy := 1, likesCount := 1, createdAt := 5 },
               { id := 3, uploadedBy := 9, likesCount := 1, createdAt := 3 }],
    likes := [{ id := 4, userId := 1, imageId := 2, createdAt := 6 },
              { id := 5, userId := 1, imageId := 3, createdAt := 7 }],
    nextId := 60 }

/-- The demo collection fits one page of 20. -/
theorem collDemoSt_total_le : (collectionView 1 1 20 collDemoSt).total ≤ 20 := by
  show (sortImagesDesc (jsMapValues _)).length ≤ 20
  rw [sortImagesDesc, List.length_insertionSort]
  refine le_trans (jsMapValues_length_le _) ?_
  decide

/-- Witness for `collection_all_union` at user 1, limit 20. -/
theorem collection_all_union_witness :
    (collectionView 1 1 20 collDemoSt).total ≤ 20 ∧
    (((collectionView 1 1 20 collDemoSt).images.map (fun a => a.img.id)).Nodup ∧
    (∀ i : Nat, (∃ a ∈ (collectionView 1 1 20 collDemoSt).images, a.img.id = i) ↔
      ((∃ im ∈ collDemoSt.images, im.id = i ∧ im.uploadedBy = 1) ∨
       ((∃ im ∈ collDemoSt.images, im.id = i) ∧
        ∃ l ∈ collDemoSt.likes, l.userId = 1 ∧ l.imageId = i))) ∧
    (collectionView 1 1 20 collDemoSt).total = (collectionView 1 1 20 collDemoSt).images.length ∧
    List.Pairwise (fun a b => b.img.createdAt ≤ a.img.createdAt)
      (collectionView 1 1 20 collDemoSt).images) :=
  ⟨collDemoSt_total_le, collection_all_union 1 20 collDemoSt collDemoSt_total_le⟩

/-- `Math.ceil(t / L)` is an upper ceiling: `t ≤ ceil(t/L) * L`. -/
theorem le_jsCeilDiv_mul (t L : Nat) (hL : 1 ≤ L) : t ≤ jsCeilDiv t L * L := by
  unfold jsCeilDiv
  rw [Nat.mul_comm]
  have h1 := Nat.div_add_mod (t + L - 1) L
  have h2 : (t + L - 1) % L < L := Nat.mod_lt _ (by omega)
  omega

/-- `Math.ceil(t / L)` is the least such multiple count. -/
theorem jsCeilDiv_le (t L k : Nat) (hL : 1 ≤ L) (h : t ≤ k * L) : jsCeilDiv t L ≤ k := by
  unfold jsCeilDiv
  rw [← Nat.lt_succ_iff, Nat.div_lt_iff_lt_mul (by omega), Nat.succ_mul]
  omega

/-- C6: for 1-indexed page `p` and positive limit `L`, the `all`
collection view returns exactly the slice `[(p-1)L, (p-1)L + L)` of the
deduplicated sorted union; `total` is the union's size independent of
`p`; `page` echoes `p`; `pages` is `ceil(total/L)`, characterized as
the least `k` with `total ≤ k * L`; and a page starting at or past
`total` yields an empty image list (with the same `total`, `page`,
`pages` fields, no error). -/
theorem collection_pagination (u p L : Nat) (s : St) (_hp : 1 ≤ p) (hL : 1 ≤ L) :
    ((collectionView u p L s).images.map (fun a => a.img) =
      ((collectionUnion u s).drop ((p - 1) * L)).take L) ∧
    (collectionView u p L s).total = (collectionUnion u s).length ∧
    (collectionView u p L s).page = p ∧
    (collectionView u p L s).total ≤ (collectionView u p L s).pages * L ∧
    (∀ k : Nat, (collectionView u p L s).total ≤ k * L →
      (collectionView u p L s).pages ≤ k) ∧
    ((collectionView u p L s).total ≤ (p - 1) * L →
      (collectionView u p L s).images = []) := by
  refine ⟨?_, rfl, rfl, ?_, ?_, ?_⟩
  · show ((((collectionUnion u s).drop ((p - 1) * L)).take L).map (collAnnot u s)).map
      (fun a => a.img) = ((collectionUnion u s).drop ((p - 1) * L)).take L
    rw [List.map_map]
    have hcomp : ((fun a : AnnImage => a.img) ∘ collAnnot u s) = fun im => im := rfl
    rw [hcomp, List.map_id']
  · show (collectionUnion u s).length ≤ jsCeilDiv ((collectionUnion u s).length) L * L
    exact le_jsCeilDiv_mul _ L hL
  · intro k hk
    exact jsCeilDiv_le _ L k hL hk
  · intro hge
    show (((collectionUnion u s).drop ((p - 1) * L)).take L).map (collAnnot u s) = []
    rw [List.drop_eq_nil_of_le hge, List.take_nil, List.map_nil]

/-- Witness for `collection_pagination` at user 1, page 2, limit 3. -/
theorem collection_pagination_witness :
    (1 ≤ 2 ∧ 1 ≤ 3) ∧
    (((collectionView 1 2 3 collDemoSt).images.map (fun a => a.img) =
      ((collectionUnion 1 collDemoSt).drop ((2 - 1) * 3)).take 3) ∧
    (collectionView 1 2 3 collDemoSt).total = (collectionUnion 1 collDemoSt).length ∧
    (collectionView 1 2 3 collDemoSt).page = 2 ∧
    (collectionView 1 2 3 collDemoSt).total ≤ (collectionView 1 2 3 collDemoSt).pages * 3 ∧
    (∀ k : Nat, (collectionView 1 2 3 collDemoSt).total ≤ k * 3 →
      (collectionView 1 2 3 collDemoSt).pages ≤ k) ∧
    ((collectionView 1 2 3 collDemoSt).total ≤ (2 - 1) * 3 →
      (collectionView 1 2 3 collDemoSt).images = [])) :=
  ⟨⟨by decide, by decide⟩, collection_pagination 1 2 3 collDemoSt (by decide) (by decide)⟩
